import Mathlib

/-!
Shallow embedding of the FAQ-dataset scripts
(aggregate_realfaq.py, parse_docling_json.py, parse_html_files.py)
and proofs about the behaviour claimed in the specification.

Strings are modelled as lists of characters (Python str); machine-level
concerns do not arise.  Filesystem reads are modelled by passing each
file's decode outcome explicitly; everything else is translated directly
from the Python source.
-/

set_option maxRecDepth 8000

namespace Spec2Proof

/-! ## Character and string helpers (models of Python str operations) -/

/-- Characters treated as whitespace by Python str.strip and regex \s
(ASCII whitespace plus the no-break space, the only ones relevant here). -/
def pyIsSpace (c : Char) : Bool :=
  c = ' ' || c = '\t' || c = '\n' || c = '\r' || c = '\x0b' || c = '\x0c' || c = '\u00A0'

/-- ASCII lower-casing of a character, as Python str.lower on tag names. -/
def lowerChar (c : Char) : Char :=
  if 'A' ≤ c && c ≤ 'Z' then Char.ofNat (c.toNat + 32) else c

def lowerStr (cs : List Char) : List Char := cs.map lowerChar

/-- Boolean prefix test: does the pattern start the string? -/
def startsWithB : List Char → List Char → Bool
  | [], _ => true
  | _ :: _, [] => false
  | p :: ps, c :: cs => p = c && startsWithB ps cs

/-- Model of Python str.find returning the first index at which the
pattern occurs, or none (Python returns -1). -/
def strFind (pat : List Char) : List Char → Option Nat
  | [] => if startsWithB pat [] then some 0 else none
  | c :: t =>
    if startsWithB pat (c :: t) then some 0
    else (strFind pat t).map (· + 1)

/-- Model of the Python test sub in s. -/
def containsSub (pat s : List Char) : Bool := (strFind pat s).isSome

/-- Model of Python str.replace replacing every non-overlapping occurrence,
scanning left to right.  The fuel is the length of the string plus one, and
every step consumes at least one character, so it never runs out.
(Python patterns used in the scripts are never empty.) -/
def replaceAllAux (pat rep : List Char) : Nat → List Char → List Char
  | 0, cs => cs
  | _ + 1, [] => []
  | fuel + 1, c :: cs =>
    if pat ≠ [] && startsWithB pat (c :: cs) then
      rep ++ replaceAllAux pat rep fuel ((c :: cs).drop pat.length)
    else
      c :: replaceAllAux pat rep fuel cs

def replaceAll (pat rep cs : List Char) : List Char :=
  replaceAllAux pat rep (cs.length + 1) cs

/-- Remove trailing whitespace. -/
def stripRight (cs : List Char) : List Char :=
  (cs.reverse.dropWhile pyIsSpace).reverse

/-- Model of Python str.strip (both ends). -/
def pyStrip (cs : List Char) : List Char :=
  stripRight (cs.dropWhile pyIsSpace)

/-- First '/' separated segment, Python s.split(sep)[0]. -/
def firstSegment (sep : Char) (cs : List Char) : List Char :=
  cs.takeWhile (fun c => c ≠ sep)

/-- Model of pathlib Path(p).name: the component after the last '/'. -/
def basenameOf (cs : List Char) : List Char :=
  (cs.reverse.takeWhile (fun c => c ≠ '/')).reverse

/-! ## Model of Python html.unescape / HTMLParser character references

Only the standard named references that can occur in this dataset are
decoded (amp, lt, gt, quot, apos, nbsp) together with decimal and
hexadecimal numeric references; all require the closing semicolon. -/

def namedEntities : List (List Char × Char) :=
  [("amp".toList, '&'), ("lt".toList, '<'), ("gt".toList, '>'),
   ("quot".toList, '"'), ("apos".toList, Char.ofNat 39), ("nbsp".toList, '\u00A0')]

def isHexDigit (c : Char) : Bool :=
  c.isDigit || ('a' ≤ c && c ≤ 'f') || ('A' ≤ c && c ≤ 'F')

def hexDigitVal (c : Char) : Nat :=
  if c.isDigit then c.toNat - '0'.toNat
  else if 'a' ≤ c && c ≤ 'f' then c.toNat - 'a'.toNat + 10
  else c.toNat - 'A'.toNat + 10

def hexVal (ds : List Char) : Nat := ds.foldl (fun a c => a * 16 + hexDigitVal c) 0

def decVal (ds : List Char) : Nat := ds.foldl (fun a c => a * 10 + (c.toNat - '0'.toNat)) 0

def lookupEntity (name : List Char) : List (List Char × Char) → Option Char
  | [] => none
  | (n, c) :: t => if n = name then some c else lookupEntity name t

/-- Parse one character reference right after an ampersand; returns the
decoded character and the number of input characters consumed. -/
def parseEntity (rest : List Char) : Option (Char × Nat) :=
  match rest with
  | '#' :: t =>
    match t with
    | 'x' :: t2 =>
      let ds := t2.takeWhile isHexDigit
      if ds ≠ [] && (t2.drop ds.length).head? = some ';' then
        some (Char.ofNat (hexVal ds), 2 + ds.length + 1)
      else none
    | 'X' :: t2 =>
      let ds := t2.takeWhile isHexDigit
      if ds ≠ [] && (t2.drop ds.length).head? = some ';' then
        some (Char.ofNat (hexVal ds), 2 + ds.length + 1)
      else none
    | _ =>
      let ds := t.takeWhile Char.isDigit
      if ds ≠ [] && (t.drop ds.length).head? = some ';' then
        some (Char.ofNat (decVal ds), 1 + ds.length + 1)
      else none
  | _ =>
    let name := rest.takeWhile Char.isAlphanum
    if name ≠ [] && (rest.drop name.length).head? = some ';' then
      (lookupEntity name namedEntities).map (fun c => (c, name.length + 1))
    else none

/-- Model of html.unescape, decoding character references left to right. -/
def unescapeAux : Nat → List Char → List Char
  | 0, cs => cs
  | _ + 1, [] => []
  | fuel + 1, c :: rest =>
    if c = '&' then
      match parseEntity rest with
      | some (d, k) => d :: unescapeAux fuel (rest.drop k)
      | none => '&' :: unescapeAux fuel rest
    else c :: unescapeAux fuel rest

def unescapeChars (cs : List Char) : List Char := unescapeAux (cs.length + 1) cs

/-! ## JSON values

Values as produced by Python json.load.  Objects are association lists in
insertion order; json.load produces objects with pairwise distinct keys,
and numbers are taken as integers (no claim involves floats). -/

inductive Json where
  | null : Json
  | bool (b : Bool) : Json
  | num (n : Int) : Json
  | str (s : String) : Json
  | arr (items : List Json) : Json
  | obj (fields : List (String × Json)) : Json

/-- Python truthiness of a decoded JSON value. -/
def pyTruthy : Json → Bool
  | .null => false
  | .bool b => b
  | .num n => n ≠ 0
  | .str s => s ≠ ""
  | .arr l => !l.isEmpty
  | .obj l => !l.isEmpty

/-- Key lookup in a decoded object (keys are distinct after json.load). -/
def jsonLookup (k : String) : List (String × Json) → Option Json
  | [] => none
  | (k2, v) :: t => if k2 = k then some v else jsonLookup k t

/-- Python d.get(k, default). -/
def jsonGetD (kvs : List (String × Json)) (k : String) (d : Json) : Json :=
  (jsonLookup k kvs).getD d

/-- Python d[k] = v: replace the value in place if the key exists,
otherwise append the new key at the end. -/
def setKey : List (String × Json) → String → Json → List (String × Json)
  | [], k, v => [(k, v)]
  | (k2, v2) :: t, k, v =>
    if k2 = k then (k2, v) :: t else (k2, v2) :: setKey t k v

/-! ## Model of Python html.parser.HTMLParser tokenisation

The parser classes in the scripts override handle_starttag, handle_endtag
and handle_data; this tokenizer models the event stream HTMLParser feeds
to them (convert_charrefs is the default True, so character references in
ordinary data are decoded, while script/style content is passed raw).
Tag and attribute names are lower-cased, attribute values are unescaped.
The fuel is the input length plus one; every step consumes at least one
character, so it never runs out. -/

inductive HEvent where
  | startTag (name : List Char) (attrs : List (List Char × Option (List Char))) : HEvent
  | endTag (name : List Char) : HEvent
  | data (txt : List Char) : HEvent
  deriving DecidableEq, Repr

def quoteChar : Char := Char.ofNat 39

/-- Characters allowed to continue a tag or attribute name. -/
def nameBodyChar (c : Char) : Bool :=
  !(pyIsSpace c) && c ≠ '/' && c ≠ '>' && c ≠ '='

/-- Parse the attribute section of a start tag, up to and including the
closing angle bracket.  Returns the attributes, whether the tag was
self-closing, and the rest of the input; none on end of input inside the
tag (HTMLParser then buffers the incomplete tag and emits nothing). -/
def parseAttrs : Nat → List Char → Option (List (List Char × Option (List Char)) × Bool × List Char)
  | 0, _ => none
  | fuel + 1, cs =>
    match cs.dropWhile pyIsSpace with
    | [] => none
    | '>' :: r => some ([], false, r)
    | '/' :: '>' :: r => some ([], true, r)
    | '/' :: r => parseAttrs fuel r
    | c :: r =>
      let nm := (c :: r).takeWhile nameBodyChar
      if nm = [] then parseAttrs fuel r
      else
        let r1 := ((c :: r).drop nm.length).dropWhile pyIsSpace
        match r1 with
        | '=' :: r2 =>
          let r3 := r2.dropWhile pyIsSpace
          match r3 with
          | '"' :: r4 =>
            let v := r4.takeWhile (fun x => x ≠ '"')
            match r4.drop v.length with
            | _ :: r5 =>
              (parseAttrs fuel r5).map
                (fun p => ((lowerStr nm, some (unescapeChars v)) :: p.1, p.2))
            | [] => none
          | q :: r4 =>
            if q = quoteChar then
              let v := r4.takeWhile (fun x => x ≠ quoteChar)
              match r4.drop v.length with
              | _ :: r5 =>
                (parseAttrs fuel r5).map
                  (fun p => ((lowerStr nm, some (unescapeChars v)) :: p.1, p.2))
              | [] => none
            else
              let v := r3.takeWhile (fun x => !(pyIsSpace x) && x ≠ '>')
              (parseAttrs fuel (r3.drop v.length)).map
                (fun p => ((lowerStr nm, some (unescapeChars v)) :: p.1, p.2))
          | [] => none
        | _ => (parseAttrs fuel r1).map (fun p => ((lowerStr nm, none) :: p.1, p.2))

/-- Raw-text (CDATA) elements whose content HTMLParser passes through
without tag or reference processing. -/
def cdataElems : List (List Char) := ["script".toList, "style".toList]

/-- The event stream produced by feeding the character list to HTMLParser. -/
def tokenizeAux : Nat → List Char → List HEvent
  | 0, _ => []
  | _ + 1, [] => []
  | fuel + 1, '<' :: '/' :: rest =>
    let nm := rest.takeWhile (fun c => c ≠ '>')
    match rest.drop nm.length with
    | _ :: after =>
      .endTag (lowerStr (pyStrip nm)) :: tokenizeAux fuel after
    | [] => []
  | fuel + 1, '<' :: '!' :: rest =>
    let nm := rest.takeWhile (fun c => c ≠ '>')
    match rest.drop nm.length with
    | _ :: after => tokenizeAux fuel after
    | [] => []
  | fuel + 1, '<' :: c :: rest =>
    if c.isAlpha then
      let nm := (c :: rest).takeWhile nameBodyChar
      match parseAttrs ((c :: rest).length + 1) ((c :: rest).drop nm.length) with
      | none => []
      | some (attrs, selfClosing, after) =>
        let tag := lowerStr nm
        if selfClosing then
          .startTag tag attrs :: .endTag tag :: tokenizeAux fuel after
        else if cdataElems.contains tag then
          match strFind ('<' :: '/' :: tag) after with
          | none => [.startTag tag attrs]
          | some i =>
            let raw := after.take i
            .startTag tag attrs ::
              (if raw = [] then tokenizeAux fuel (after.drop i)
               else .data raw :: tokenizeAux fuel (after.drop i))
        else
          .startTag tag attrs :: tokenizeAux fuel after
    else
      .data ['<'] :: tokenizeAux fuel (c :: rest)
  | _ + 1, '<' :: [] => []
  | fuel + 1, c :: rest =>
    let txt := (c :: rest).takeWhile (fun x => x ≠ '<')
    .data (unescapeChars txt) :: tokenizeAux fuel ((c :: rest).drop txt.length)

def tokenize (cs : List Char) : List HEvent := tokenizeAux (cs.length + 1) cs

/-! ## aggregate_realfaq.py -/

/-- Find the span matched by the regex pattern of a newline, greedy
whitespace, newline, starting at a newline: the largest k such that the
next k characters are whitespace and character k is a newline. -/
def matchNLGap (rest : List Char) : Option Nat :=
  let run := rest.takeWhile pyIsSpace
  let tailNoNL := run.reverse.takeWhile (fun c => c ≠ '\n')
  if tailNoNL.length = run.length then none
  else some (run.length - tailNoNL.length - 1)

/-- Model of re.sub collapsing a newline, whitespace, newline span to a
single newline, scanning left to right (TextExtractor.extract_text). -/
def collapseNLAux : Nat → List Char → List Char
  | 0, cs => cs
  | _ + 1, [] => []
  | fuel + 1, c :: rest =>
    if c = '\n' then
      match matchNLGap rest with
      | some k => '\n' :: collapseNLAux fuel (rest.drop (k + 1))
      | none => '\n' :: collapseNLAux fuel rest
    else c :: collapseNLAux fuel rest

def collapseNL (cs : List Char) : List Char := collapseNLAux (cs.length + 1) cs

/-- Model of re.sub collapsing runs of spaces and tabs to one space. -/
def collapseSpTabAux : Nat → List Char → List Char
  | 0, cs => cs
  | _ + 1, [] => []
  | fuel + 1, c :: rest =>
    if c = ' ' || c = '\t' then
      ' ' :: collapseSpTabAux fuel (rest.dropWhile (fun x => x = ' ' || x = '\t'))
    else c :: collapseSpTabAux fuel rest

def collapseSpTab (cs : List Char) : List Char := collapseSpTabAux (cs.length + 1) cs

/-- TextExtractor.handle_starttag / handle_endtag / handle_data: the text
fragment each event appends to text_parts. -/
def textEventChars : HEvent → List Char
  | .startTag n _ =>
    if n = "li".toList then "• ".toList
    else if n = "br".toList then ['\n']
    else []
  | .endTag n =>
    if n = "li".toList || n = "p".toList || n = "div".toList
        || n = "ul".toList || n = "ol".toList then ['\n']
    else []
  | .data d => d

/-- TextExtractor.extract_text: unescape, feed, join the parts, collapse
blank lines and space runs, strip. -/
def extract_text (html : List Char) : List Char :=
  if html = [] then []
  else
    pyStrip (collapseSpTab (collapseNL
      (((tokenize (unescapeChars html)).map textEventChars).flatten)))

/-- extract_plain_text. -/
def extract_plain_text (html : List Char) : List Char :=
  if html = [] then [] else extract_text html

/-- LinkExtractor.handle_starttag: href values collected from one event. -/
def linkEventLinks : HEvent → List (List Char)
  | .startTag n attrs =>
    if n = "a".toList then
      attrs.filterMap (fun p =>
        if p.1 = "href".toList then
          match p.2 with
          | some v => if v ≠ [] then some v else none
          | none => none
        else none)
    else []
  | _ => []

/-- extract_links_from_text (LinkExtractor on the raw HTML). -/
def extract_links_from_text (html : List Char) : List (List Char) :=
  if html = [] then [] else ((tokenize html).map linkEventLinks).flatten

/-- clean_text: the sequence of str.replace calls removing invisible
characters (the final whitespace-collapsing line is commented out in the
source). -/
def clean_text (cs : List Char) : List Char :=
  let c1 := replaceAll ['\u200B'] [] cs
  let c2 := replaceAll ['\u200C'] [] c1
  let c3 := replaceAll ['\u200D'] [] c2
  let c4 := replaceAll ['\u2060'] [] c3
  let c5 := replaceAll ['\uFEFF'] [] c4
  let c6 := replaceAll ['\u00A0'] [' '] c5
  let c7 := replaceAll ['\u2028'] [] c6
  let c8 := replaceAll ['\u2029'] [] c7
  replaceAll ['\u00A0'] [] c8

/-- The duplicate-removing loop in process_faq_content, kept generic for
the proofs: append each element not already present. -/
def pyDedup {α : Type} [DecidableEq α] (links : List α) : List α :=
  links.foldl (fun acc l => if l ∈ acc then acc else acc ++ [l]) []

/-- clean_text applied to an arbitrary field value: a string is cleaned; a
truthy non-string raises AttributeError on str.replace; a falsy value is
returned unchanged by the early return. -/
def cleanValue : Json → Except String Json
  | .str s => .ok (.str (String.mk (clean_text s.toList)))
  | v => if pyTruthy v then .error "AttributeError" else .ok v

/-- extract_plain_text applied to an arbitrary field value: falsy values
take the early return to the empty string; a truthy non-string raises
TypeError in the regex fallback of extract_text. -/
def plainTextValue : Json → Except String String
  | .str s => .ok (String.mk (extract_plain_text s.toList))
  | v => if pyTruthy v then .error "TypeError" else .ok ""

/-- extract_links_from_text applied to an arbitrary field value: the early
return covers falsy values, and feeding a truthy non-string raises inside
the try of extract_links, which is caught, leaving no links. -/
def linksFromValue : Json → List (List Char)
  | .str s => extract_links_from_text s.toList
  | _ => []

/-- The question and answer links of one FAQ entry in source order. -/
def faqAllLinks (kvs : List (String × Json)) : List (List Char) :=
  linksFromValue (jsonGetD kvs "question" (.str "")) ++
    linksFromValue (jsonGetD kvs "answer" (.str ""))

/-- The body of the per-FAQ loop in process_faq_content: non-dict entries
are skipped unchanged; for a dict, links are extracted, question and
answer are cleaned, the plain-text answer and the deduplicated
more_reference list are added. -/
def processFaq : Json → Except String Json
  | .obj kvs => do
    let qv := jsonGetD kvs "question" (.str "")
    let qlinks := linksFromValue qv
    let q2 ← cleanValue qv
    let kvs1 := setKey kvs "question" q2
    let av := jsonGetD kvs "answer" (.str "")
    let alinks := linksFromValue av
    let a2 ← cleanValue av
    let kvs2 := setKey kvs1 "answer" a2
    let atext ← plainTextValue av
    let kvs3 := setKey kvs2 "answer_text" (.str (String.mk (clean_text atext.toList)))
    let uniqueLinks := pyDedup (qlinks ++ alinks)
    let kvs4 := setKey kvs3 "more_reference"
      (.arr (uniqueLinks.map (fun l => .str (String.mk l))))
    pure (.obj kvs4)
  | v => pure v

def mapExcept {α β : Type} (f : α → Except String β) : List α → Except String (List β)
  | [] => .ok []
  | a :: t => do
    let b ← f a
    let bs ← mapExcept f t
    pure (b :: bs)

/-- process_faq_content: data without a faqs key (or not a dict) is
returned unchanged; iterating a dict or string value of faqs touches no
entry; iterating a number, boolean or null raises TypeError. -/
def process_faq_content : Json → Except String Json
  | .obj kvs =>
    match jsonLookup "faqs" kvs with
    | none => .ok (.obj kvs)
    | some (.arr l) =>
      (mapExcept processFaq l).map (fun l2 => .obj (setKey kvs "faqs" (.arr l2)))
    | some (.obj _) => .ok (.obj kvs)
    | some (.str _) => .ok (.obj kvs)
    | some _ => .error "TypeError"
  | v => .ok v

/-- The first branch of generate_source_url: the short topics-faq
convention. -/
def topicOnlyUrl (cs : List Char) : List Char :=
  let filename := basenameOf cs
  let topic := replaceAll "-faq-realfaq.json".toList [] filename
  "https://www.harel-group.co.il/insurance/".toList ++ topic ++ "/information/faq/".toList

/-- The second branch of generate_source_url: the full-domain-path
convention, defined when both substring searches succeed. -/
def domainPathUrl (cs : List Char) : Option (List Char) :=
  match strFind "www.harel-group.co.il".toList cs, strFind "-realfaq".toList cs with
  | some i, some j => some ("https://".toList ++ (cs.drop i).take (j - i) ++ ".html".toList)
  | _, _ => none

/-- generate_source_url. -/
def generate_source_url (sf : String) : String :=
  if startsWithB "topics-faq/".toList sf.toList &&
      containsSub "-faq-realfaq.json".toList sf.toList then
    String.mk (topicOnlyUrl sf.toList)
  else if containsSub "www.harel-group.co.il".toList sf.toList then
    match domainPathUrl sf.toList with
    | some u => String.mk u
    | none => ""
  else ""

/-- extract_topic_from_url. -/
def extract_topic_from_url (u : String) : String :=
  if u = "" then ""
  else if containsSub "www.harel-group.co.il/insurance/".toList u.toList then
    match strFind "/insurance/".toList u.toList with
    | some i =>
      let rem := u.toList.drop (i + "/insurance/".toList.length)
      let topic := firstSegment '/' rem
      String.mk (if topic.any (fun c => c = '.') then
        topic.takeWhile (fun c => c ≠ '.') else topic)
    | none => ""
  else ""

/-- One file found by the directory scan: its path relative to the scanned
directory and the outcome of reading and JSON-decoding it. -/
structure FFile where
  rel : String
  readResult : Except String Json

/-- read_json_file: a decode or read failure is logged and yields the
empty dict. -/
def read_json_file : Except String Json → Json
  | .ok v => v
  | .error _ => .obj []

/-- One entry of the aggregated content list. -/
structure AggEntry where
  source_file : String
  topic : String
  source_url : String
  data : Json

def mkEntry (f : FFile) (j : Json) : Except String AggEntry :=
  (process_faq_content j).map (fun pd =>
    { source_file := f.rel
      topic := extract_topic_from_url (generate_source_url f.rel)
      source_url := generate_source_url f.rel
      data := pd })

/-- The per-file loop of aggregate_json_files: a file whose read result is
truthy contributes one entry to content and its path to files_processed;
all other files are skipped. -/
def processFiles : List FFile → Except String (List String × List AggEntry)
  | [] => .ok ([], [])
  | f :: fs =>
    if pyTruthy (read_json_file f.readResult) then do
      let entry ← mkEntry f (read_json_file f.readResult)
      let rest ← processFiles fs
      pure (f.rel :: rest.1, entry :: rest.2)
    else processFiles fs

/-- The aggregated document: metadata.total_files, metadata.files_processed
and content (source_directory is an absolute path of the host filesystem
and is not modelled). -/
structure AggOut where
  total_files : Nat
  files_processed : List String
  content : List AggEntry

/-- aggregate_json_files up to the final write: the document built from
the files found by the scan. -/
def buildAggregate (files : List FFile) : Except String AggOut :=
  (processFiles files).map (fun p =>
    { total_files := files.length, files_processed := p.1, content := p.2 })

/-- Console reports relevant to the claims. -/
inductive Msg where
  | noFilesFound : Msg
  | foundFiles (n : Nat) : Msg
  | errorWritingOutput : Msg
  | aggregationComplete : Msg
  deriving DecidableEq, Repr

/-- aggregate_json_files: the scan outcome is passed in (a missing
directory raises FileNotFoundError), writeOk tells whether the final
json.dump/open succeeds.  A write failure is caught inside the function,
reported, and the function returns normally. -/
def aggregate_json_files (findResult : Except String (List FFile)) (writeOk : Bool) :
    Except String (List Msg) :=
  match findResult with
  | .error e => .error e
  | .ok files =>
    if files.isEmpty then .ok [.noFilesFound]
    else
      match buildAggregate files with
      | .error e => .error e
      | .ok _ =>
        if writeOk then .ok [.foundFiles files.length, .aggregationComplete]
        else .ok [.foundFiles files.length, .errorWritingOutput]

/-- main: any exception escaping aggregate_json_files is reported and the
process returns 1; otherwise it returns 0. -/
def mainExit (findResult : Except String (List FFile)) (writeOk : Bool) : Nat :=
  match aggregate_json_files findResult writeOk with
  | .ok _ => 0
  | .error _ => 1

/-! ## parse_docling_json.py -/

/-- One record of the docling extractor: a text with its hyperlink. -/
structure CItem where
  text : String
  hyperlink : Option String
  deriving DecidableEq, Repr

/-- The value of the text key if it is a string. -/
def textVal (kvs : List (String × Json)) : Option String :=
  match jsonLookup "text" kvs with
  | some (.str s) => some s
  | _ => none

/-- The value of the first key in the priority list that is present with a
string value on the same object. -/
def firstStrOfKeys (kvs : List (String × Json)) : List String → Option String
  | [] => none
  | k :: t =>
    match jsonLookup k kvs with
    | some (.str s) => some s
    | _ => firstStrOfKeys kvs t

def linkKeys : List String := ["hyperlink", "href", "url", "link"]

def hyperVal (kvs : List (String × Json)) : Option String := firstStrOfKeys kvs linkKeys

mutual
/-- extract_content_from_json: the accumulator models the mutated
content_items list; a record is appended when the object has a truthy
text string, then recursion continues into every value. -/
def extract_content_from_json : Json → List CItem → List CItem
  | .obj kvs, acc =>
    let acc1 :=
      match textVal kvs with
      | some t => if t ≠ "" then acc ++ [⟨t, hyperVal kvs⟩] else acc
      | none => acc
    extractKvs kvs acc1
  | .arr l, acc => extractArr l acc
  | _, acc => acc

def extractKvs : List (String × Json) → List CItem → List CItem
  | [], acc => acc
  | (_, v) :: t, acc => extractKvs t (extract_content_from_json v acc)

def extractArr : List Json → List CItem → List CItem
  | [], acc => acc
  | v :: t, acc => extractArr t (extract_content_from_json v acc)
end

mutual
/-- The structured-JSON extraction as the (amended) specification words
it, written compositionally: one record per object whose text key holds a
non-empty string, paired with the first priority link key present with a
string value on that same object; recursion into every value in order. -/
def specExtractContent : Json → List CItem
  | .obj kvs =>
    (match textVal kvs with
     | some t => if t ≠ "" then [⟨t, hyperVal kvs⟩] else []
     | none => []) ++ specKvs kvs
  | .arr l => specArr l
  | _ => []

def specKvs : List (String × Json) → List CItem
  | [] => []
  | (_, v) :: t => specExtractContent v ++ specKvs t

def specArr : List Json → List CItem
  | [] => []
  | v :: t => specExtractContent v ++ specArr t
end

def insuranceMarker : List Char := "www.harel-group.co.il/insurance/".toList

namespace Docling

/-- parse_docling_json.extract_topic_from_path: the segment after the
first occurrence of the fixed marker, verbatim; none when absent. -/
def extract_topic_from_path (path : String) : Option String :=
  match strFind insuranceMarker path.toList with
  | none => none
  | some i =>
    some (String.mk (firstSegment '/' (path.toList.drop (i + insuranceMarker.length))))

end Docling

/-- The index assignment of parse_json_file / parse_html_file: each item
paired with its position (Python enumerate starting from the given
counter). -/
def addIndexFrom {α : Type} (n : Nat) : List α → List (α × Nat)
  | [] => []
  | a :: t => (a, n) :: addIndexFrom (n + 1) t

def addIndex {α : Type} (l : List α) : List (α × Nat) := addIndexFrom 0 l

/-- The indexed content of one docling file. -/
def doclingContentIndexed (j : Json) : List (CItem × Nat) :=
  addIndex (extract_content_from_json j [])

/-! ## parse_html_files.py -/

/-- One emitted h1/h2/h3/p item. -/
structure TagItem where
  tag : String
  text : String
  deriving DecidableEq, Repr

/-- HTMLContentParser state. -/
structure HCState where
  content_items : List TagItem
  currentTag : Option (List Char)
  currentText : List Char
  inScript : Bool
  scriptContent : List Char
  deriving DecidableEq, Repr

def initHC : HCState := ⟨[], none, [], false, []⟩

def headingTags : List (List Char) := ["h1".toList, "h2".toList, "h3".toList, "p".toList]

/-- dict(attrs).get(k): the last binding wins; a value-less attribute is
None and compares unequal to any string. -/
def attrsDictGet (attrs : List (List Char × Option (List Char))) (k : List Char) :
    Option (List Char) :=
  match attrs.reverse.find? (fun p => p.1 = k) with
  | some (_, some v) => some v
  | _ => none

/-- One step of HTMLContentParser (handle_starttag, handle_endtag,
handle_data). -/
def hcStep (st : HCState) (e : HEvent) : HCState :=
  match e with
  | .startTag tag attrs =>
    if tag ∈ headingTags then
      { st with currentTag := some tag, currentText := [] }
    else if tag = "script".toList then
      if attrsDictGet attrs "id".toList = some "__NEXT_DATA__".toList ∧
          attrsDictGet attrs "type".toList = some "application/json".toList then
        { st with inScript := true, scriptContent := [] }
      else st
    else st
  | .endTag tag =>
    if tag ∈ headingTags ∧ st.currentTag = some tag then
      { st with
        content_items := st.content_items ++
          (if pyStrip st.currentText ≠ [] then
            [⟨String.mk tag, String.mk (pyStrip st.currentText)⟩] else [])
        currentTag := none
        currentText := [] }
    else if tag = "script".toList ∧ st.inScript then
      { st with inScript := false }
    else st
  | .data d =>
    match st.currentTag with
    | some _ => { st with currentText := st.currentText ++ d }
    | none => if st.inScript then { st with scriptContent := st.scriptContent ++ d } else st

def runHC (evs : List HEvent) (st : HCState) : HCState := evs.foldl hcStep st

/-- The content items extracted from one HTML input. -/
def htmlContentItems (html : String) : List TagItem :=
  (runHC (tokenize html.toList) initHC).content_items

/-- The indexed content of parse_html_file. -/
def htmlContentIndexed (html : String) : List (TagItem × Nat) :=
  addIndex (htmlContentItems html)

namespace HtmlParse

/-- parse_html_files.extract_topic_from_path: as the docling variant but
the segment is truncated at the first dot when it contains one. -/
def extract_topic_from_path (path : String) : Option String :=
  match strFind insuranceMarker path.toList with
  | none => none
  | some i =>
    let topic := firstSegment '/' (path.toList.drop (i + insuranceMarker.length))
    some (String.mk (if topic.any (fun c => c = '.') then
      topic.takeWhile (fun c => c ≠ '.') else topic))

end HtmlParse

/-- The tag-removing regex of clean_html: an angle bracket, at least one
character other than a closing bracket, a closing bracket. -/
def removeTagsAux : Nat → List Char → List Char
  | 0, cs => cs
  | _ + 1, [] => []
  | fuel + 1, c :: rest =>
    if c = '<' then
      let body := rest.takeWhile (fun x => x ≠ '>')
      if body ≠ [] && rest.drop body.length ≠ [] then
        removeTagsAux fuel (rest.drop (body.length + 1))
      else '<' :: removeTagsAux fuel rest
    else c :: removeTagsAux fuel rest

def removeTags (cs : List Char) : List Char := removeTagsAux (cs.length + 1) cs

/-- The whitespace-collapsing regex of clean_html. -/
def collapseWsAux : Nat → List Char → List Char
  | 0, cs => cs
  | _ + 1, [] => []
  | fuel + 1, c :: rest =>
    if pyIsSpace c then ' ' :: collapseWsAux fuel (rest.dropWhile pyIsSpace)
    else c :: collapseWsAux fuel rest

def collapseWs (cs : List Char) : List Char := collapseWsAux (cs.length + 1) cs

/-- clean_html: strip tags, decode entities, collapse whitespace, strip. -/
def clean_html (s : String) : String :=
  String.mk (pyStrip (collapseWs (unescapeChars (removeTags s.toList))))

/-- One record of the __NEXT_DATA__ extractor. -/
structure NDField where
  field : String
  original : String
  clean : String
  deriving DecidableEq, Repr

mutual
/-- extract_text_and_strhtml: per key, a string-valued text or strHTML key
emits a record, any other key recurses into its value. -/
def extract_text_and_strhtml : Json → List NDField → List NDField
  | .obj kvs, acc => ndKvs kvs acc
  | .arr l, acc => ndArr l acc
  | _, acc => acc

def ndKvs : List (String × Json) → List NDField → List NDField
  | [], acc => acc
  | (k, v) :: t, acc =>
    ndKvs t (
      if k = "text" then
        match v with
        | .str s => acc ++ [⟨"text", s, clean_html s⟩]
        | _ => extract_text_and_strhtml v acc
      else if k = "strHTML" then
        match v with
        | .str s => acc ++ [⟨"strHTML", s, clean_html s⟩]
        | _ => extract_text_and_strhtml v acc
      else extract_text_and_strhtml v acc)

def ndArr : List Json → List NDField → List NDField
  | [], acc => acc
  | v :: t, acc => ndArr t (extract_text_and_strhtml v acc)
end

/-- The indexed __NEXT_DATA__ fields of parse_html_file, from the decoded
script JSON (none when the script is absent or fails to decode). -/
def nextDataFields (nd : Option Json) : List (NDField × Nat) :=
  match nd with
  | some v => if pyTruthy v then addIndex (extract_text_and_strhtml v []) else []
  | none => []

/-! ## Auxiliary definitions for the proofs -/

/-- First-occurrence deduplication relative to an already-seen list: the
recursive reading of the duplicate-removal loop. -/
def dedupFrom {α : Type} [DecidableEq α] (seen : List α) : List α → List α
  | [] => []
  | a :: l => if a ∈ seen then dedupFrom seen l else a :: dedupFrom (a :: seen) l

/-- Index of the first occurrence of an element in a list (the length
when absent). -/
def firstIdx {α : Type} [DecidableEq α] (x : α) : List α → Nat
  | [] => 0
  | a :: t => if a = x then 0 else firstIdx x t + 1

/-- End-tag events for the headings and paragraphs collected by
HTMLContentParser; an item can only be emitted while handling one. -/
def isHeadingEnd : HEvent → Bool
  | .endTag t => decide (t ∈ headingTags)
  | _ => false

/-- The decoded content of the single input file of the aggregation
scenario. -/
def c8Input : Json :=
  .obj [("faqs", .arr [.obj
    [("question", .str "<p>Q1</p>"),
     ("answer", .str "<p>A1 <a href=\x27http://x\x27>link</a></p>")]])]

/-- A question whose HTML holds one link. -/
def c5Question : String := "<a href=\x27http://x\x27>a</a>"

/-- An answer whose HTML repeats that link twice more around another. -/
def c5Answer : String :=
  "<a href=\x27http://x\x27>b</a><a href=\x27http://y\x27>c</a><a href=\x27http://x\x27>d</a>"

/-- The processed FAQ data the aggregator produces for that file. -/
def c8Processed : Json :=
  .obj [("faqs", .arr [.obj
    [("question", .str "<p>Q1</p>"),
     ("answer", .str "<p>A1 <a href=\x27http://x\x27>link</a></p>"),
     ("answer_text", .str "A1 link"),
     ("more_reference", .arr [.str "http://x"])]])]

/-! ## General helper lemmas -/

theorem toList_mk (l : List Char) : (String.mk l).toList = l := rfl

theorem drop_length_append {α : Type} (l₁ l₂ : List α) :
    (l₁ ++ l₂).drop l₁.length = l₂ := by
  induction l₁ with
  | nil => simp
  | cons a t ih => simp [ih]

theorem containsSub_false_find {pat s : List Char} (h : containsSub pat s = false) :
    strFind pat s = none := by
  unfold containsSub at h
  cases hf : strFind pat s with
  | none => rfl
  | some i => rw [hf] at h; simp [Option.isSome] at h

/-! ## C1: precedence of the two URL conventions in generate_source_url -/

/-- C1, counterexample: the relative path
topics-faq/www.harel-group.co.il-faq-realfaq.json carries both the
topic-only marker and the domain-path marker, yet generate_source_url
answers by the topic-only convention, not by the domain-path convention
(which would give https://www.harel-group.co.il-faq.html). -/
theorem C1_counterexample :
    startsWithB "topics-faq/".toList
        "topics-faq/www.harel-group.co.il-faq-realfaq.json".toList = true ∧
    containsSub "-faq-realfaq.json".toList
        "topics-faq/www.harel-group.co.il-faq-realfaq.json".toList = true ∧
    containsSub "www.harel-group.co.il".toList
        "topics-faq/www.harel-group.co.il-faq-realfaq.json".toList = true ∧
    domainPathUrl "topics-faq/www.harel-group.co.il-faq-realfaq.json".toList =
      some "https://www.harel-group.co.il-faq.html".toList ∧
    generate_source_url "topics-faq/www.harel-group.co.il-faq-realfaq.json" =
      "https://www.harel-group.co.il/insurance/www.harel-group.co.il/information/faq/" ∧
    generate_source_url "topics-faq/www.harel-group.co.il-faq-realfaq.json" ≠
      "https://www.harel-group.co.il-faq.html" := by
  refine ⟨by decide, by decide, by decide, by decide, by decide, by decide⟩

/-- C1, amended: whenever the topic-only markers are present (the path
starts with topics-faq/ and contains -faq-realfaq.json),
generate_source_url answers by the topic-only convention, regardless of
whether the domain-path marker is also present; the domain-path
convention applies only otherwise. -/
theorem C1_theorem (s : String)
    (h1 : startsWithB "topics-faq/".toList s.toList = true)
    (h2 : containsSub "-faq-realfaq.json".toList s.toList = true) :
    generate_source_url s = String.mk (topicOnlyUrl s.toList) := by
  unfold generate_source_url
  rw [h1, h2]
  simp

/-- C1, witness: the amended theorem applied to the double-marker path. -/
theorem C1_witness :
    startsWithB "topics-faq/".toList
        "topics-faq/www.harel-group.co.il-faq-realfaq.json".toList = true ∧
    containsSub "-faq-realfaq.json".toList
        "topics-faq/www.harel-group.co.il-faq-realfaq.json".toList = true ∧
    generate_source_url "topics-faq/www.harel-group.co.il-faq-realfaq.json" =
      String.mk (topicOnlyUrl "topics-faq/www.harel-group.co.il-faq-realfaq.json".toList) :=
  ⟨by decide, by decide,
    C1_theorem "topics-faq/www.harel-group.co.il-faq-realfaq.json" (by decide) (by decide)⟩

/-! ## C3: topic extraction from a file path -/

/-- C3, counterexample: the marker is the literal
www.harel-group.co.il/insurance/, not a generic domain followed by
/insurance/: the path of the claim with domain www.example.co.il yields
no topic in both scripts; moreover the docling variant returns the
following segment verbatim, without stripping a file extension. -/
theorem C3_counterexample :
    HtmlParse.extract_topic_from_path ".../www.example.co.il/insurance/travel/page.json" = none ∧
    Docling.extract_topic_from_path ".../www.example.co.il/insurance/travel/page.json" = none ∧
    Docling.extract_topic_from_path "x/www.harel-group.co.il/insurance/page.json" =
      some "page.json" ∧
    HtmlParse.extract_topic_from_path "x/www.harel-group.co.il/insurance/page.json" =
      some "page" := by
  refine ⟨by decide, by decide, by decide, by decide⟩

/-- C3, amended: both topic extractors look for the fixed marker
www.harel-group.co.il/insurance/; at its first occurrence they return the
path segment immediately following it, the parse_html_files variant
truncating it at its first dot and the parse_docling_json variant
returning it verbatim; absent the marker both return none. -/
theorem C3_theorem (p r : List Char) (s : String)
    (h1 : strFind insuranceMarker (p ++ insuranceMarker ++ r) = some p.length)
    (h2 : containsSub insuranceMarker s.toList = false) :
    Docling.extract_topic_from_path (String.mk (p ++ insuranceMarker ++ r)) =
      some (String.mk (firstSegment '/' r)) ∧
    HtmlParse.extract_topic_from_path (String.mk (p ++ insuranceMarker ++ r)) =
      some (String.mk
        (if (firstSegment '/' r).any (fun c => c = '.') then
          (firstSegment '/' r).takeWhile (fun c => c ≠ '.')
        else firstSegment '/' r)) ∧
    Docling.extract_topic_from_path s = none ∧
    HtmlParse.extract_topic_from_path s = none := by
  have hdrop : (p ++ insuranceMarker ++ r).drop (p.length + insuranceMarker.length) = r := by
    rw [show p.length + insuranceMarker.length = (p ++ insuranceMarker).length by
      simp [List.length_append]]
    exact drop_length_append (p ++ insuranceMarker) r
  have hfind := containsSub_false_find h2
  refine ⟨?_, ?_, ?_, ?_⟩
  · unfold Docling.extract_topic_from_path
    rw [toList_mk, h1]
    simp [hdrop]
  · unfold HtmlParse.extract_topic_from_path
    rw [toList_mk, h1]
    simp [hdrop]
  · unfold Docling.extract_topic_from_path
    rw [hfind]
  · unfold HtmlParse.extract_topic_from_path
    rw [hfind]

/-- C3, witness: the amended theorem applied to a concrete harel-group
path and a concrete marker-free path. -/
theorem C3_witness :
    strFind insuranceMarker
        ("data/".toList ++ insuranceMarker ++ "travel/page.json".toList) = some 5 ∧
    containsSub insuranceMarker "other/site/page.json".toList = false ∧
    Docling.extract_topic_from_path
        (String.mk ("data/".toList ++ insuranceMarker ++ "travel/page.json".toList)) =
      some "travel" ∧
    Docling.extract_topic_from_path "other/site/page.json" = none := by
  have h := C3_theorem "data/".toList "travel/page.json".toList "other/site/page.json"
    (by decide) (by decide)
  exact ⟨by decide, by decide, h.1, h.2.2.1⟩

/-! ## C2: exit behaviour of the aggregator -/

/-- C2, counterexample: on a run where one file was found and processed
but the final write fails, the write error is reported, yet the process
exits 0 (the exception is caught inside aggregate_json_files, so main
never sees it), contradicting the claimed non-zero exit. -/
theorem C2_counterexample :
    aggregate_json_files
        (.ok [⟨"a-realfaq.json", .ok (Json.obj [("faqs", Json.arr [])])⟩]) false =
      .ok [.foundFiles 1, .errorWritingOutput] ∧
    mainExit (.ok [⟨"a-realfaq.json", .ok (Json.obj [("faqs", Json.arr [])])⟩]) false = 0 :=
  ⟨rfl, rfl⟩

/-- C2, amended: on every run whose scan found files and whose per-file
processing completes, the process exits 0 whether or not the final write
succeeds; a write failure is reported by an error message, a successful
write by the completion message. -/
theorem C2_theorem (files : List FFile) (writeOk : Bool)
    (hne : files ≠ []) (hok : ∃ out, buildAggregate files = .ok out) :
    mainExit (.ok files) writeOk = 0 ∧
    (writeOk = false →
      aggregate_json_files (.ok files) writeOk =
        .ok [.foundFiles files.length, .errorWritingOutput]) ∧
    (writeOk = true →
      aggregate_json_files (.ok files) writeOk =
        .ok [.foundFiles files.length, .aggregationComplete]) := by
  obtain ⟨out, hb⟩ := hok
  have hie : files.isEmpty = false := by
    cases files with
    | nil => cases hne rfl
    | cons f fs => rfl
  have hagg : aggregate_json_files (.ok files) writeOk =
      .ok (if writeOk then [.foundFiles files.length, .aggregationComplete]
           else [.foundFiles files.length, .errorWritingOutput]) := by
    simp only [aggregate_json_files, hie, hb]
    cases writeOk <;> simp
  refine ⟨?_, ?_, ?_⟩
  · unfold mainExit
    rw [hagg]
  · intro hw; rw [hagg, hw]; simp
  · intro hw; rw [hagg, hw]; simp

/-- C2, witness: the amended theorem applied to a one-file run with a
failing write. -/
theorem C2_witness :
    ([⟨"b-realfaq.json", .ok (Json.obj [("x", Json.null)])⟩] : List FFile) ≠ [] ∧
    mainExit (.ok [⟨"b-realfaq.json", .ok (Json.obj [("x", Json.null)])⟩]) false = 0 ∧
    aggregate_json_files (.ok [⟨"b-realfaq.json", .ok (Json.obj [("x", Json.null)])⟩]) false =
      .ok [.foundFiles 1, .errorWritingOutput] := by
  have h := C2_theorem [⟨"b-realfaq.json", .ok (Json.obj [("x", Json.null)])⟩] false
    (by simp) ⟨_, rfl⟩
  exact ⟨by simp, h.1, h.2.1 rfl⟩

/-! ## C7 and C10: the bookkeeping of the aggregation loop -/

/-- The per-file loop keeps exactly the files whose read result is truthy,
in traversal order, and content entries carry those same paths. -/
theorem processFiles_spec : ∀ (files : List FFile) (ps : List String) (es : List AggEntry),
    processFiles files = .ok (ps, es) →
    ps = (files.filter (fun f => pyTruthy (read_json_file f.readResult))).map FFile.rel ∧
    es.map AggEntry.source_file = ps := by
  intro files
  induction files with
  | nil =>
    intro ps es h
    simp only [processFiles, Except.ok.injEq, Prod.mk.injEq] at h
    obtain ⟨h1, h2⟩ := h
    subst h1; subst h2
    simp
  | cons f fs ih =>
    intro ps es h
    unfold processFiles at h
    cases hb : pyTruthy (read_json_file f.readResult) with
    | false =>
      rw [hb] at h
      simp only [Bool.false_eq_true, if_false] at h
      obtain ⟨h1, h2⟩ := ih ps es h
      refine ⟨?_, h2⟩
      rw [h1, List.filter_cons, hb]
      simp
    | true =>
      rw [hb] at h
      simp only [if_true] at h
      cases hm : mkEntry f (read_json_file f.readResult) with
      | error e =>
        rw [hm] at h
        simp [Bind.bind, Except.bind] at h
      | ok entry =>
        rw [hm] at h
        cases hp : processFiles fs with
        | error e =>
          rw [hp] at h
          simp [Bind.bind, Except.bind] at h
        | ok pr =>
          rw [hp] at h
          simp only [Bind.bind, Except.bind, Pure.pure, Except.pure,
            Except.ok.injEq, Prod.mk.injEq] at h
          obtain ⟨h1, h2⟩ := h
          subst h1; subst h2
          have hsf : entry.source_file = f.rel := by
            unfold mkEntry at hm
            cases hpc : process_faq_content (read_json_file f.readResult) with
            | error e => rw [hpc] at hm; simp [Except.map] at hm
            | ok pd =>
              rw [hpc] at hm
              simp only [Except.map, Except.ok.injEq] at hm
              rw [← hm]
          obtain ⟨h3, h4⟩ := ih pr.1 pr.2 (by rw [hp])
          constructor
          · rw [List.filter_cons, hb]
            simp only [if_true, List.map_cons]
            rw [← h3]
          · simp only [List.map_cons, hsf, h4]

/-- C7, counterexample: a found file that decodes successfully to the
empty object is excluded from files_processed, so files_processed is not
the list of successfully parsed files. -/
theorem C7_counterexample :
    (⟨"a-realfaq.json", .ok (Json.obj [])⟩ : FFile).readResult = .ok (Json.obj []) ∧
    buildAggregate [⟨"a-realfaq.json", .ok (Json.obj [])⟩] =
      .ok ⟨1, [], []⟩ ∧
    ([] : List String) ≠ ["a-realfaq.json"] :=
  ⟨rfl, rfl, by simp⟩

/-- C7, amended: on every completed aggregation run, metadata.total_files
counts all files found by the scan; files_processed holds exactly, in
traversal order, the relative paths of the files whose decoded content is
truthy (a malformed file decodes to the falsy empty dict and is
excluded, as is any file decoding to a falsy value); the content entries
carry the same paths in the same order, so both sequences have equal
length. -/
theorem C7_theorem (files : List FFile) (out : AggOut)
    (h : buildAggregate files = .ok out) :
    out.total_files = files.length ∧
    out.files_processed =
      (files.filter (fun f => pyTruthy (read_json_file f.readResult))).map FFile.rel ∧
    out.content.map AggEntry.source_file = out.files_processed ∧
    out.content.length = out.files_processed.length := by
  unfold buildAggregate at h
  cases hp : processFiles files with
  | error e => rw [hp] at h; simp [Except.map] at h
  | ok pr =>
    rw [hp] at h
    simp only [Except.map, Except.ok.injEq] at h
    obtain ⟨h1, h2⟩ := processFiles_spec files pr.1 pr.2 (by rw [hp])
    subst h
    refine ⟨rfl, h1, h2, ?_⟩
    rw [← h2, List.length_map]

/-- C7, witness: the amended theorem applied to a run over two truthy
files and one malformed file: three found, two processed, aligned
content. -/
theorem C7_witness :
    buildAggregate
        [⟨"a-realfaq.json", .ok (Json.obj [("x", Json.null)])⟩,
         ⟨"b-realfaq.json", .ok (Json.arr [Json.num 1])⟩,
         ⟨"c-realfaq.json", .error "bad"⟩] =
      .ok ⟨3, ["a-realfaq.json", "b-realfaq.json"],
        [⟨"a-realfaq.json", "", "", Json.obj [("x", Json.null)]⟩,
         ⟨"b-realfaq.json", "", "", Json.arr [Json.num 1]⟩]⟩ ∧
    (3 = 3 ∧
      ["a-realfaq.json", "b-realfaq.json"] =
        (([⟨"a-realfaq.json", .ok (Json.obj [("x", Json.null)])⟩,
           ⟨"b-realfaq.json", .ok (Json.arr [Json.num 1])⟩,
           ⟨"c-realfaq.json", .error "bad"⟩] : List FFile).filter
          (fun f => pyTruthy (read_json_file f.readResult))).map FFile.rel ∧
      ["a-realfaq.json", "b-realfaq.json"] = ["a-realfaq.json", "b-realfaq.json"] ∧
      (2 : Nat) = 2) := by
  have h := C7_theorem
    [⟨"a-realfaq.json", .ok (Json.obj [("x", Json.null)])⟩,
     ⟨"b-realfaq.json", .ok (Json.arr [Json.num 1])⟩,
     ⟨"c-realfaq.json", .error "bad"⟩]
    ⟨3, ["a-realfaq.json", "b-realfaq.json"],
      [⟨"a-realfaq.json", "", "", Json.obj [("x", Json.null)]⟩,
       ⟨"b-realfaq.json", "", "", Json.arr [Json.num 1]⟩]⟩ rfl
  exact ⟨rfl, rfl, h.2.1, rfl, rfl⟩

/-- A file whose read result is a falsy decoded value contributes the
same as one whose decode failed, at every position of the scan list. -/
theorem processFiles_falsy_eq_malformed (pre post : List FFile) (p : String)
    (v : Json) (e : String) (hv : pyTruthy v = false) :
    processFiles (pre ++ ⟨p, .ok v⟩ :: post) =
      processFiles (pre ++ ⟨p, .error e⟩ :: post) := by
  induction pre with
  | nil =>
    simp only [List.nil_append]
    unfold processFiles
    simp [read_json_file, hv, show pyTruthy (Json.obj []) = false from rfl]
  | cons f fs ih =>
    simp only [List.cons_append]
    unfold processFiles
    rw [ih]

/-- C10: a found file decoding to a falsy value (empty object or array,
null, false, zero, empty string) is silently excluded exactly like a
malformed file: the aggregate it produces is identical, while
metadata.total_files still counts it. -/
theorem C10_theorem (pre post : List FFile) (p : String) (v : Json) (e : String)
    (hv : pyTruthy v = false) :
    buildAggregate (pre ++ ⟨p, .ok v⟩ :: post) =
      buildAggregate (pre ++ ⟨p, .error e⟩ :: post) ∧
    ∀ out, buildAggregate (pre ++ ⟨p, .ok v⟩ :: post) = .ok out →
      out.total_files = pre.length + 1 + post.length := by
  constructor
  · unfold buildAggregate
    rw [processFiles_falsy_eq_malformed pre post p v e hv]
    simp [List.length_append]
  · intro out h
    unfold buildAggregate at h
    cases hp : processFiles (pre ++ ⟨p, .ok v⟩ :: post) with
    | error e2 => rw [hp] at h; simp [Except.map] at h
    | ok pr =>
      rw [hp] at h
      simp only [Except.map, Except.ok.injEq] at h
      subst h
      simp [List.length_append]
      omega

/-- C10, witness: a file decoding to null among one truthy file. -/
theorem C10_witness :
    pyTruthy Json.null = false ∧
    buildAggregate
        [⟨"x-realfaq.json", .ok (Json.obj [("x", Json.null)])⟩,
         ⟨"n-realfaq.json", .ok Json.null⟩] =
      buildAggregate
        [⟨"x-realfaq.json", .ok (Json.obj [("x", Json.null)])⟩,
         ⟨"n-realfaq.json", .error "bad"⟩] ∧
    (2 : Nat) = 1 + 1 + 0 := by
  have h := C10_theorem [⟨"x-realfaq.json", .ok (Json.obj [("x", Json.null)])⟩] []
    "n-realfaq.json" Json.null "bad" rfl
  exact ⟨rfl, h.1,
    h.2 ⟨2, ["x-realfaq.json"],
      [⟨"x-realfaq.json", "", "", Json.obj [("x", Json.null)]⟩]⟩ rfl⟩

/-! ## C8: the end-to-end aggregation scenario -/

/-- C8: aggregating a directory whose single file is
topics-faq/travel-faq-realfaq.json with one question/answer pair produces
the record with source_url
https://www.harel-group.co.il/insurance/travel/information/faq/, topic
travel, the answer text A1 link and more_reference http://x. -/
theorem C8_theorem :
    buildAggregate [⟨"topics-faq/travel-faq-realfaq.json", .ok c8Input⟩] =
      .ok ⟨1, ["topics-faq/travel-faq-realfaq.json"],
        [⟨"topics-faq/travel-faq-realfaq.json", "travel",
          "https://www.harel-group.co.il/insurance/travel/information/faq/",
          c8Processed⟩]⟩ := rfl

/-! ## C4: the structured-JSON extractor -/

/-- Joint refinement of the three mutually recursive extraction
functions against their compositional specification, by strong induction
on size. -/
theorem extractRefineAux : ∀ n : Nat,
    (∀ j : Json, sizeOf j ≤ n → ∀ acc,
      extract_content_from_json j acc = acc ++ specExtractContent j) ∧
    (∀ kvs : List (String × Json), sizeOf kvs ≤ n → ∀ acc,
      extractKvs kvs acc = acc ++ specKvs kvs) ∧
    (∀ l : List Json, sizeOf l ≤ n → ∀ acc,
      extractArr l acc = acc ++ specArr l) := by
  intro n
  induction n with
  | zero =>
    refine ⟨fun j hj acc => ?_, fun kvs hk acc => ?_, fun l hl acc => ?_⟩
    · have hp : 0 < sizeOf j := by cases j <;> simp_arith
      omega
    · have hp : 0 < sizeOf kvs := by cases kvs <;> simp_arith
      omega
    · have hp : 0 < sizeOf l := by cases l <;> simp_arith
      omega
  | succ n ih =>
    obtain ⟨ihj, ihk, iha⟩ := ih
    refine ⟨fun j hj acc => ?_, fun kvs hk acc => ?_, fun l hl acc => ?_⟩
    · cases j with
      | obj kvs =>
        have hsz : sizeOf kvs ≤ n := by simp_arith at hj; omega
        cases ht : textVal kvs with
        | none => simp [extract_content_from_json, specExtractContent, ht, ihk kvs hsz]
        | some t =>
          by_cases hne : t = "" <;>
            simp [extract_content_from_json, specExtractContent, ht, hne, ihk kvs hsz]
      | arr l =>
        have hsz : sizeOf l ≤ n := by simp_arith at hj; omega
        simp [extract_content_from_json, specExtractContent, iha l hsz]
      | null => simp [extract_content_from_json, specExtractContent]
      | bool b => simp [extract_content_from_json, specExtractContent]
      | num m => simp [extract_content_from_json, specExtractContent]
      | str s => simp [extract_content_from_json, specExtractContent]
    · cases kvs with
      | nil => simp [extractKvs, specKvs]
      | cons kv t =>
        obtain ⟨k, v⟩ := kv
        have hv : sizeOf v ≤ n := by simp_arith at hk; omega
        have ht : sizeOf t ≤ n := by simp_arith at hk; omega
        simp only [extractKvs, specKvs]
        rw [ihj v hv acc, ihk t ht (acc ++ specExtractContent v), List.append_assoc]
    · cases l with
      | nil => simp [extractArr, specArr]
      | cons v t =>
        have hv : sizeOf v ≤ n := by simp_arith at hl; omega
        have ht : sizeOf t ≤ n := by simp_arith at hl; omega
        simp only [extractArr, specArr]
        rw [ihj v hv acc, iha t ht (acc ++ specExtractContent v), List.append_assoc]

/-- C4, counterexample: an object whose text key holds the empty string
emits no record (the truthiness test rejects it), and when the first
priority key present (hyperlink) holds a non-string value the record is
paired with the next priority key holding a string (href), not with the
first key present. -/
theorem C4_counterexample :
    extract_content_from_json (Json.obj [("text", Json.str "")]) [] = [] ∧
    extract_content_from_json
        (Json.obj [("text", Json.str "t"), ("hyperlink", Json.num 5),
                   ("href", Json.str "h")]) [] =
      [⟨"t", some "h"⟩] := by
  refine ⟨by decide, by decide⟩

/-- C4, amended: the extractor appended to any accumulator equals the
accumulator followed by the compositional specification: one record per
object whose text key holds a non-empty string, paired with the first key
among hyperlink, href, url, link present with a string value on that same
object (an absent hyperlink otherwise), recursing into every object value
and array element in order, records emitted in depth-first order. -/
theorem C4_theorem (d : Json) (acc : List CItem) :
    extract_content_from_json d acc = acc ++ specExtractContent d :=
  (extractRefineAux (sizeOf d)).1 d le_rfl acc

/-! ## C9: index assignment and determinism -/

theorem addIndexFrom_snd {α : Type} :
    ∀ (l : List α) (n : Nat), (addIndexFrom n l).map Prod.snd = List.range' n l.length := by
  intro l
  induction l with
  | nil => intro n; simp [addIndexFrom]
  | cons a t ih => intro n; simp [addIndexFrom, List.range'_succ, ih]

theorem addIndexFrom_length {α : Type} :
    ∀ (l : List α) (n : Nat), (addIndexFrom n l).length = l.length := by
  intro l
  induction l with
  | nil => intro n; simp [addIndexFrom]
  | cons a t ih => intro n; simp [addIndexFrom, ih]

theorem addIndex_snd {α : Type} (l : List α) :
    (addIndex l).map Prod.snd = List.range (addIndex l).length := by
  rw [addIndex, addIndexFrom_snd, addIndexFrom_length, List.range_eq_range']

/-- C9: for every input the index values assigned to the docling content
items, the HTML content items and the next_data fields are exactly
0..count-1 in emission order, and extraction is deterministic: equal
inputs give equal outputs. -/
theorem C9_theorem (j j2 : Json) (html html2 : String) (nd nd2 : Option Json) :
    (doclingContentIndexed j).map Prod.snd = List.range (doclingContentIndexed j).length ∧
    (htmlContentIndexed html).map Prod.snd = List.range (htmlContentIndexed html).length ∧
    (nextDataFields nd).map Prod.snd = List.range (nextDataFields nd).length ∧
    (j = j2 → doclingContentIndexed j = doclingContentIndexed j2) ∧
    (html = html2 → htmlContentIndexed html = htmlContentIndexed html2) ∧
    (nd = nd2 → nextDataFields nd = nextDataFields nd2) := by
  refine ⟨addIndex_snd _, addIndex_snd _, ?_, fun h => by rw [h], fun h => by rw [h],
    fun h => by rw [h]⟩
  cases nd with
  | none => simp [nextDataFields]
  | some v =>
    cases htv : pyTruthy v <;> simp [nextDataFields, htv, addIndex_snd]

/-- C9, witness: the theorem applied to concrete inputs, with the
determinism hypotheses discharged. -/
theorem C9_witness :
    (doclingContentIndexed (Json.obj [("text", Json.str "hello")])).map Prod.snd =
      List.range (doclingContentIndexed (Json.obj [("text", Json.str "hello")])).length ∧
    doclingContentIndexed (Json.obj [("text", Json.str "hello")]) =
      doclingContentIndexed (Json.obj [("text", Json.str "hello")]) ∧
    htmlContentIndexed "<p>A</p>" = htmlContentIndexed "<p>A</p>" := by
  have h := C9_theorem (Json.obj [("text", Json.str "hello")])
    (Json.obj [("text", Json.str "hello")]) "<p>A</p>" "<p>A</p>" none none
  exact ⟨h.1, h.2.2.2.1 rfl, h.2.2.2.2.1 rfl⟩

/-! ## C5: deduplication of more_reference -/

theorem dedupFrom_congr {α : Type} [DecidableEq α] :
    ∀ (l s1 s2 : List α), (∀ x, x ∈ s1 ↔ x ∈ s2) → dedupFrom s1 l = dedupFrom s2 l := by
  intro l
  induction l with
  | nil => intro s1 s2 _; rfl
  | cons a t ih =>
    intro s1 s2 hs
    simp only [dedupFrom]
    by_cases ha : a ∈ s1
    · rw [if_pos ha, if_pos ((hs a).1 ha), ih s1 s2 hs]
    · rw [if_neg ha, if_neg (fun h => ha ((hs a).2 h)),
        ih (a :: s1) (a :: s2) (by intro x; simp [hs x])]

theorem foldl_dedup_eq {α : Type} [DecidableEq α] :
    ∀ (l acc : List α),
      List.foldl (fun acc l => if l ∈ acc then acc else acc ++ [l]) acc l =
        acc ++ dedupFrom acc l := by
  intro l
  induction l with
  | nil => intro acc; simp [dedupFrom]
  | cons a t ih =>
    intro acc
    simp only [List.foldl_cons, dedupFrom]
    by_cases ha : a ∈ acc
    · rw [if_pos ha, if_pos ha, ih acc]
    · rw [if_neg ha, if_neg ha, ih (acc ++ [a]),
        dedupFrom_congr t (acc ++ [a]) (a :: acc) (by intro x; simp; tauto)]
      simp

theorem pyDedup_eq_dedupFrom {α : Type} [DecidableEq α] (l : List α) :
    pyDedup l = dedupFrom [] l := by
  unfold pyDedup
  rw [foldl_dedup_eq]
  simp

theorem mem_dedupFrom {α : Type} [DecidableEq α] :
    ∀ (l seen : List α) (x : α), x ∈ dedupFrom seen l ↔ x ∈ l ∧ x ∉ seen := by
  intro l
  induction l with
  | nil => intro seen x; simp [dedupFrom]
  | cons a t ih =>
    intro seen x
    simp only [dedupFrom]
    by_cases ha : a ∈ seen
    · rw [if_pos ha, ih seen x]
      simp only [List.mem_cons]
      constructor
      · rintro ⟨hx, hn⟩; exact ⟨Or.inr hx, hn⟩
      · rintro ⟨(rfl | hx), hn⟩
        · exact absurd ha hn
        · exact ⟨hx, hn⟩
    · rw [if_neg ha]
      simp only [List.mem_cons, ih (a :: seen) x, List.mem_cons]
      constructor
      · rintro (rfl | ⟨hx, hn⟩)
        · exact ⟨Or.inl rfl, ha⟩
        · exact ⟨Or.inr hx, fun hs => hn (Or.inr hs)⟩
      · rintro ⟨(rfl | hx), hn⟩
        · exact Or.inl rfl
        · by_cases hxa : x = a
          · exact Or.inl hxa
          · exact Or.inr ⟨hx, fun hs => (by
              rcases hs with h | h
              · exact hxa h
              · exact hn h)⟩

theorem nodup_dedupFrom {α : Type} [DecidableEq α] :
    ∀ (l seen : List α), (dedupFrom seen l).Nodup := by
  intro l
  induction l with
  | nil => intro seen; simp [dedupFrom]
  | cons a t ih =>
    intro seen
    simp only [dedupFrom]
    by_cases ha : a ∈ seen
    · rw [if_pos ha]; exact ih seen
    · rw [if_neg ha]
      refine List.nodup_cons.2 ⟨?_, ih (a :: seen)⟩
      intro hmem
      exact ((mem_dedupFrom t (a :: seen) a).1 hmem).2 (List.mem_cons_self a seen)

theorem firstIdx_cons_ne {α : Type} [DecidableEq α] {a x : α} (t : List α) (h : a ≠ x) :
    firstIdx x (a :: t) = firstIdx x t + 1 := by
  simp [firstIdx, h]

theorem pairwise_dedupFrom {α : Type} [DecidableEq α] :
    ∀ (l seen : List α),
      (dedupFrom seen l).Pairwise (fun x y => firstIdx x l < firstIdx y l) := by
  intro l
  induction l with
  | nil => intro seen; simp [dedupFrom]
  | cons a t ih =>
    intro seen
    simp only [dedupFrom]
    by_cases ha : a ∈ seen
    · rw [if_pos ha]
      refine (ih seen).imp_of_mem ?_
      intro x y hx hy hlt
      have hxa : a ≠ x := fun he =>
        ((mem_dedupFrom t seen x).1 hx).2 (he ▸ ha)
      have hya : a ≠ y := fun he =>
        ((mem_dedupFrom t seen y).1 hy).2 (he ▸ ha)
      rw [firstIdx_cons_ne t hxa, firstIdx_cons_ne t hya]
      omega
    · rw [if_neg ha]
      refine List.Pairwise.cons ?_ ?_
      · intro y hy
        have hmem := (mem_dedupFrom t (a :: seen) y).1 hy
        have hya : a ≠ y := fun he => hmem.2 (by rw [← he]; exact List.mem_cons_self a seen)
        rw [firstIdx_cons_ne t hya]
        simp [firstIdx]
      · refine (ih (a :: seen)).imp_of_mem ?_
        intro x y hx hy hlt
        have hxa : a ≠ x := fun he =>
          ((mem_dedupFrom t (a :: seen) x).1 hx).2 (by rw [← he]; exact List.mem_cons_self a seen)
        have hya : a ≠ y := fun he =>
          ((mem_dedupFrom t (a :: seen) y).1 hy).2 (by rw [← he]; exact List.mem_cons_self a seen)
        rw [firstIdx_cons_ne t hxa, firstIdx_cons_ne t hya]
        omega

theorem jsonLookup_setKey_self : ∀ (kvs : List (String × Json)) (k : String) (v : Json),
    jsonLookup k (setKey kvs k v) = some v := by
  intro kvs k v
  induction kvs with
  | nil => simp [setKey, jsonLookup]
  | cons kv t ih =>
    obtain ⟨k2, v2⟩ := kv
    by_cases h : k2 = k
    · simp [setKey, h, jsonLookup]
    · simp [setKey, h, jsonLookup, ih]

/-- C5: for every FAQ entry whose question and answer values are strings
(possibly defaulted to the empty string), processing succeeds and stores
under more_reference the deduplication of the question links followed by
the answer links: it has no duplicates, holds exactly the URLs of that
concatenation, and is ordered by first occurrence in it. -/
theorem C5_theorem (kvs : List (String × Json)) (q a : String)
    (h1 : jsonGetD kvs "question" (.str "") = .str q)
    (h2 : jsonGetD kvs "answer" (.str "") = .str a) :
    (∃ kvs4, processFaq (.obj kvs) = .ok (.obj kvs4) ∧
      jsonLookup "more_reference" kvs4 =
        some (.arr ((pyDedup (extract_links_from_text q.toList ++
          extract_links_from_text a.toList)).map (fun l => .str (String.mk l))))) ∧
    (pyDedup (extract_links_from_text q.toList ++
      extract_links_from_text a.toList)).Nodup ∧
    (∀ x, x ∈ pyDedup (extract_links_from_text q.toList ++
        extract_links_from_text a.toList) ↔
      x ∈ extract_links_from_text q.toList ++ extract_links_from_text a.toList) ∧
    (pyDedup (extract_links_from_text q.toList ++
      extract_links_from_text a.toList)).Pairwise (fun x y =>
        firstIdx x (extract_links_from_text q.toList ++
          extract_links_from_text a.toList) <
        firstIdx y (extract_links_from_text q.toList ++
          extract_links_from_text a.toList)) := by
  refine ⟨?_, ?_, ?_, ?_⟩
  · simp only [processFaq]
    rw [h1, h2]
    simp only [linksFromValue, cleanValue, plainTextValue, Bind.bind, Except.bind,
      Pure.pure, Except.pure]
    exact ⟨_, rfl, jsonLookup_setKey_self _ _ _⟩
  · rw [pyDedup_eq_dedupFrom (extract_links_from_text q.toList ++
      extract_links_from_text a.toList)]
    exact nodup_dedupFrom _ _
  · intro x
    rw [pyDedup_eq_dedupFrom (extract_links_from_text q.toList ++
      extract_links_from_text a.toList)]
    rw [mem_dedupFrom (extract_links_from_text q.toList ++
      extract_links_from_text a.toList) [] x]
    simp
  · rw [pyDedup_eq_dedupFrom (extract_links_from_text q.toList ++
      extract_links_from_text a.toList)]
    exact pairwise_dedupFrom (extract_links_from_text q.toList ++
      extract_links_from_text a.toList) []

/-- C5, witness: the theorem applied to a FAQ entry whose raw HTML
repeats the link http://x three times: more_reference keeps it once, in
first-seen order before http://y. -/
theorem C5_witness :
    jsonGetD [("question", Json.str c5Question), ("answer", Json.str c5Answer)]
        "question" (Json.str "") = Json.str c5Question ∧
    jsonGetD [("question", Json.str c5Question), ("answer", Json.str c5Answer)]
        "answer" (Json.str "") = Json.str c5Answer ∧
    pyDedup (extract_links_from_text c5Question.toList ++
        extract_links_from_text c5Answer.toList) =
      ["http://x".toList, "http://y".toList] ∧
    (∃ kvs4, processFaq (.obj [("question", Json.str c5Question),
        ("answer", Json.str c5Answer)]) = .ok (.obj kvs4) ∧
      jsonLookup "more_reference" kvs4 =
        some (.arr ((pyDedup (extract_links_from_text c5Question.toList ++
          extract_links_from_text c5Answer.toList)).map (fun l => .str (String.mk l))))) ∧
    (pyDedup (extract_links_from_text c5Question.toList ++
      extract_links_from_text c5Answer.toList)).Nodup := by
  have h := C5_theorem [("question", Json.str c5Question), ("answer", Json.str c5Answer)]
    c5Question c5Answer rfl rfl
  exact ⟨rfl, rfl, by decide, h.1, h.2.1⟩

/-! ## C6: emitted HTML items are trimmed and closed -/

theorem dropWhile_head_not {α : Type} (p : α → Bool) :
    ∀ (l : List α) (c : α), (l.dropWhile p).head? = some c → p c = false := by
  intro l
  induction l with
  | nil => intro c h; simp at h
  | cons a t ih =>
    intro c h
    by_cases hp : p a
    · rw [List.dropWhile_cons, if_pos hp] at h
      exact ih c h
    · rw [List.dropWhile_cons, if_neg hp] at h
      simp at h
      rw [← h]
      simp [hp]

theorem dropWhile_idem {α : Type} (p : α → Bool) :
    ∀ l : List α, (l.dropWhile p).dropWhile p = l.dropWhile p := by
  intro l
  induction l with
  | nil => rfl
  | cons a t ih =>
    by_cases hp : p a
    · rw [List.dropWhile_cons, if_pos hp, ih]
    · rw [List.dropWhile_cons, if_neg hp, List.dropWhile_cons, if_neg hp]

theorem dropWhile_isSuffix {α : Type} (p : α → Bool) :
    ∀ l : List α, l.dropWhile p <:+ l := by
  intro l
  induction l with
  | nil => exact List.suffix_refl _
  | cons a t ih =>
    by_cases hp : p a
    · rw [List.dropWhile_cons, if_pos hp]
      exact ih.trans (List.suffix_cons a t)
    · rw [List.dropWhile_cons, if_neg hp]

theorem stripRight_isPrefix (l : List Char) : stripRight l <+: l := by
  obtain ⟨t, ht⟩ := dropWhile_isSuffix pyIsSpace l.reverse
  exact ⟨t.reverse, by
    rw [stripRight, ← List.reverse_append, ht, List.reverse_reverse]⟩

theorem prefix_head {α : Type} {l₁ l₂ : List α} (h : l₁ <+: l₂) (hne : l₁ ≠ []) :
    l₁.head? = l₂.head? := by
  obtain ⟨t, rfl⟩ := h
  cases l₁ with
  | nil => cases hne rfl
  | cons a t2 => rfl

theorem pyStrip_idem (l : List Char) : pyStrip (pyStrip l) = pyStrip l := by
  unfold pyStrip
  have hdy : (stripRight (l.dropWhile pyIsSpace)).dropWhile pyIsSpace =
      stripRight (l.dropWhile pyIsSpace) := by
    cases hy : stripRight (l.dropWhile pyIsSpace) with
    | nil => rfl
    | cons c t =>
      have hpre : stripRight (l.dropWhile pyIsSpace) <+: l.dropWhile pyIsSpace :=
        stripRight_isPrefix _
      have hh : (stripRight (l.dropWhile pyIsSpace)).head? =
          (l.dropWhile pyIsSpace).head? := prefix_head hpre (by rw [hy]; simp)
      rw [hy] at hh
      have hpc : pyIsSpace c = false := dropWhile_head_not pyIsSpace l c hh.symm
      rw [List.dropWhile_cons, if_neg (by simp [hpc])]
  rw [hdy, stripRight, stripRight, List.reverse_reverse, dropWhile_idem]

/-- Every content item present after processing one event was already
present, or is the freshly emitted trimmed non-empty item. -/
theorem hcStep_items_mem (st : HCState) (e : HEvent) (it : TagItem)
    (hit : it ∈ (hcStep st e).content_items) :
    it ∈ st.content_items ∨
      ∃ tag, it = ⟨String.mk tag, String.mk (pyStrip st.currentText)⟩ ∧
        pyStrip st.currentText ≠ [] := by
  cases e with
  | startTag tag attrs =>
    simp only [hcStep] at hit
    left
    split at hit
    · exact hit
    · split at hit
      · split at hit
        · exact hit
        · exact hit
      · exact hit
  | endTag tag =>
    simp only [hcStep] at hit
    split at hit
    · simp only [List.mem_append] at hit
      rcases hit with hit | hit
      · exact Or.inl hit
      · split at hit
        · rename_i htxt
          rw [List.mem_singleton] at hit
          exact Or.inr ⟨tag, hit, htxt⟩
        · simp at hit
    · split at hit
      · exact Or.inl hit
      · exact Or.inl hit
  | data d =>
    simp only [hcStep] at hit
    left
    split at hit
    · exact hit
    · split at hit
      · exact hit
      · exact hit

/-- Every content item present after processing an event stream is
trimmed and non-empty, provided the items already present are. -/
theorem runHC_preserves : ∀ (evs : List HEvent) (st : HCState),
    (∀ it ∈ st.content_items, pyStrip it.text.toList = it.text.toList ∧ it.text ≠ "") →
    ∀ it ∈ (runHC evs st).content_items,
      pyStrip it.text.toList = it.text.toList ∧ it.text ≠ "" := by
  intro evs
  induction evs with
  | nil => intro st h; exact h
  | cons e t ih =>
    intro st h
    apply ih
    intro it hit
    rcases hcStep_items_mem st e it hit with hold | ⟨tag, heq, htxt⟩
    · exact h it hold
    · subst heq
      refine ⟨?_, ?_⟩
      · rw [toList_mk]
        exact pyStrip_idem _
      · intro he
        apply htxt
        have h2 := congrArg String.toList he
        rw [toList_mk] at h2
        exact h2

/-- Processing one event adds at most one content item, and only at a
heading or paragraph end-tag event. -/
theorem hcStep_items_length (st : HCState) (e : HEvent) :
    (hcStep st e).content_items.length ≤
      st.content_items.length + (if isHeadingEnd e then 1 else 0) := by
  cases e with
  | startTag tag attrs =>
    have heq : (hcStep st (.startTag tag attrs)).content_items = st.content_items := by
      simp only [hcStep]
      split
      · rfl
      · split
        · split <;> rfl
        · rfl
    rw [heq]
    split <;> omega
  | data d =>
    have heq : (hcStep st (.data d)).content_items = st.content_items := by
      simp only [hcStep]
      split
      · rfl
      · split <;> rfl
    rw [heq]
    split <;> omega
  | endTag tag =>
    simp only [hcStep]
    split
    · rename_i hcond
      have hhe : isHeadingEnd (.endTag tag) = true := by
        simp [isHeadingEnd, hcond.1]
      rw [hhe]
      simp only [List.length_append]
      split <;> simp
    · split
      · dsimp only
        split <;> omega
      · split <;> omega

/-- Processing an event stream adds at most one content item per
heading or paragraph end-tag event. -/
theorem runHC_length : ∀ (evs : List HEvent) (st : HCState),
    (runHC evs st).content_items.length ≤
      st.content_items.length + evs.countP isHeadingEnd := by
  intro evs
  induction evs with
  | nil => intro st; simp [runHC]
  | cons e t ih =>
    intro st
    have hstep := hcStep_items_length st e
    have hrec := ih (hcStep st e)
    have hcount : (e :: t).countP isHeadingEnd =
        t.countP isHeadingEnd + (if isHeadingEnd e then 1 else 0) := by
      rw [List.countP_cons]
    show (runHC t (hcStep st e)).content_items.length ≤ _
    rw [hcount]
    omega

/-- C6: every content item emitted by the HTML extractor has text that is
unchanged by trimming and non-empty, and the number of emitted items is
bounded by the number of h1/h2/h3/p end-tag events, so an element whose
open tag is never matched by an end tag before end-of-input contributes
no item. -/
theorem C6_theorem (html : String) :
    (∀ it ∈ htmlContentItems html,
      pyStrip it.text.toList = it.text.toList ∧ it.text ≠ "") ∧
    (htmlContentItems html).length ≤ (tokenize html.toList).countP isHeadingEnd := by
  constructor
  · exact runHC_preserves _ initHC (by intro it hit; simp [initHC] at hit)
  · have h := runHC_length (tokenize html.toList) initHC
    simpa [htmlContentItems, initHC] using h

/-- C6, witness: an input whose h2 element closes and whose p element
never closes yields exactly the h2 item, trimmed and non-empty, and no
item for the unclosed p. -/
theorem C6_witness :
    htmlContentItems "<h2>Hello</h2><p>world" = [⟨"h2", "Hello"⟩] ∧
    (⟨"h2", "Hello"⟩ : TagItem) ∈ htmlContentItems "<h2>Hello</h2><p>world" ∧
    pyStrip ("Hello" : String).toList = ("Hello" : String).toList ∧
    ("Hello" : String) ≠ "" ∧
    (htmlContentItems "<h2>Hello</h2><p>world").length ≤
      (tokenize "<h2>Hello</h2><p>world".toList).countP isHeadingEnd := by
  have h := C6_theorem "<h2>Hello</h2><p>world"
  have hm : (⟨"h2", "Hello"⟩ : TagItem) ∈ htmlContentItems "<h2>Hello</h2><p>world" := by
    decide
  have hp := h.1 _ hm
  exact ⟨by decide, hm, hp.1, hp.2, h.2⟩

end Spec2Proof
